import Mathlib

/-!
Shallow embedding of the AiRysZ-Agents document/memory pipeline.

Rust `f32` values that the verified claims compare only for equality
(relevance scores, importance, embedding components) are modelled as exact
rationals (`Rat`); `i32`/`i64` counters as `Int`; timestamps as integer
seconds.  Provider calls (completion, embedding) and the external Qdrant
index are modelled as explicit function parameters (oracles), since they
live outside this repository.  Strings are Lean `String`s, manipulated
through explicit `List Char` functions that translate the Rust string
operations used by the source.
-/

/-- The apostrophe character (`'` in Rust source). -/
def aposChar : Char := Char.ofNat 39

/-- The double-quote character. -/
def dquoteChar : Char := Char.ofNat 34

/-- The backtick character. -/
def btickChar : Char := Char.ofNat 96

/-- Opening curly brace character. -/
def lbraceChar : Char := Char.ofNat 123

/-- Closing curly brace character. -/
def rbraceChar : Char := Char.ofNat 125

/-- `startsWithList p l` : does `l` start with the pattern `p`?
Translates Rust pattern matching at the front of a string slice. -/
def startsWithList : List Char → List Char → Bool
  | [], _ => true
  | _ :: _, [] => false
  | p :: ps, c :: cs => p = c && startsWithList ps cs

theorem startsWithList_length_le {p l : List Char} (h : startsWithList p l = true) :
    p.length ≤ l.length := by
  induction p generalizing l with
  | nil => simp
  | cons a ps ih =>
    cases l with
    | nil => simp [startsWithList] at h
    | cons c cs =>
      simp only [startsWithList, Bool.and_eq_true] at h
      simpa [List.length_cons] using Nat.succ_le_succ (ih h.2)

theorem startsWithList_self_append (p t : List Char) :
    startsWithList p (p ++ t) = true := by
  induction p with
  | nil => rfl
  | cons a ps ih => simp [startsWithList, ih]

/-- Rust `str::trim` (whitespace stripped from both ends), on char lists. -/
def trimList (l : List Char) : List Char :=
  ((l.dropWhile Char.isWhitespace).reverse.dropWhile Char.isWhitespace).reverse

/-- Rust `str::trim`. -/
def rustTrim (s : String) : String := ⟨trimList s.data⟩

/-- Rust `str::trim_matches(c)`: strip every leading and trailing occurrence
of the character `c`. -/
def trimMatchesChar (c : Char) (l : List Char) : List Char :=
  ((l.dropWhile (· = c)).reverse.dropWhile (· = c)).reverse

/-- Fuel-driven worker for `trim_start_matches` (each step with a nonempty
prefix consumes at least one character, so fuel `l.length` always
suffices; the fuel only serves structural recursion). -/
def trimStartMatchesFuel (p : List Char) : Nat → List Char → List Char
  | 0, l => l
  | fuel + 1, l =>
    if 0 < p.length ∧ startsWithList p l = true ∧ 0 < l.length then
      trimStartMatchesFuel p fuel (l.drop p.length)
    else l

/-- Rust `str::trim_start_matches(pat)`: repeatedly remove the pattern from
the front while it is a prefix. -/
def trimStartMatchesList (p l : List Char) : List Char :=
  trimStartMatchesFuel p l.length l

/-- Rust `str::replace(from, to)` for single characters. -/
def replaceCharList (from_ to_ : Char) (l : List Char) : List Char :=
  l.map (fun c => if c = from_ then to_ else c)

/-- Accumulator-style worker for Rust `str::split_whitespace`. -/
def splitWsAux : List Char → List Char → List (List Char)
  | [], acc => if acc = [] then [] else [acc.reverse]
  | c :: cs, acc =>
    if c.isWhitespace then
      if acc = [] then splitWsAux cs [] else acc.reverse :: splitWsAux cs []
    else splitWsAux cs (c :: acc)

/-- Rust `str::split_whitespace`: the whitespace-separated words of `s`,
with no empty words. -/
def splitWhitespace (s : String) : List String :=
  (splitWsAux s.data []).map (fun l => ⟨l⟩)

/-- Fuel-driven worker for Rust `str::split(sep)` with a nonempty string
separator: splits at every (leftmost, non-overlapping) occurrence, keeping
empty pieces.  Every step consumes at least one character, so fuel
`l.length` always suffices; the fuel only serves structural recursion. -/
def splitSepFuel (sep : List Char) : Nat → List Char → List Char → List (List Char)
  | _, [], acc => [acc.reverse]
  | 0, _ :: _, acc => [acc.reverse]
  | fuel + 1, c :: cs, acc =>
    if 0 < sep.length ∧ startsWithList sep (c :: cs) = true then
      acc.reverse :: splitSepFuel sep fuel ((c :: cs).drop sep.length) []
    else splitSepFuel sep fuel cs (c :: acc)

/-- Rust `str::split(sep)` (nonempty separator), as lists of chars. -/
def splitSep (sep l : List Char) : List (List Char) := splitSepFuel sep l.length l []

/-- Rust `text.split(sep).next().unwrap_or("")`: the part of `l` before the
first occurrence of the (nonempty) separator, or all of `l` if the separator
does not occur. -/
def firstSplitPart (sep : List Char) : List Char → List Char
  | [] => []
  | c :: cs =>
    if startsWithList sep (c :: cs) then []
    else c :: firstSplitPart sep cs

/-- `words[start..end].join(" ")` from the chunking loop. -/
def joinSpace : List String → String
  | [] => ""
  | [w] => w
  | w :: ws => w ++ " " ++ joinSpace ws

/-- Rust `str::lines`: split on `\n`, drop a trailing empty piece produced
by a final newline, and strip a trailing `\r` from each line. -/
def rustLines (s : String) : List String :=
  if s.data = [] then []
  else
    let parts := splitSep ['\n'] s.data
    let parts := if s.data.getLast? = some '\n' then parts.dropLast else parts
    parts.map (fun l => ⟨if l.getLast? = some '\r' then l.dropLast else l⟩)

/-!
### Document chunking (`src/providers/document/insights.rs`, `create_chunks`)
-/

/-- A chunk of document text (struct `DocumentChunk`).  The struct's
`metadata: Option<serde_json::Value>` field is always `None` in
`create_chunks` and never read by the claims, so it is omitted here. -/
structure DocumentChunk where
  text : String
  page_number : Int
  chunk_index : Int
deriving DecidableEq, Repr

/-- Fuel-driven worker for the inner `while start < words.len()` loop of
`create_chunks`: split a word list into consecutive groups of `cs` words
(the last group may be shorter).  With `cs > 0` each step consumes at least
one word, so fuel `l.length` always suffices.  The Rust loop never advances
when `chunk_size = 0` (nonterminating); that case, ruled out by the spec's
`chunk_size > 0`, is modelled as producing no chunks. -/
def chunkWordsFuel {α : Type} (cs : Nat) : Nat → List α → List (List α)
  | _, [] => []
  | 0, _ :: _ => []
  | fuel + 1, w :: ws =>
    if cs = 0 then []
    else (w :: ws).take cs :: chunkWordsFuel cs fuel ((w :: ws).drop cs)

/-- The inner chunking loop of `create_chunks`. -/
def chunkWords {α : Type} (cs : Nat) (l : List α) : List (List α) :=
  chunkWordsFuel cs l.length l

theorem chunkWordsFuel_fuel_irrel {α : Type} (cs : Nat) :
    ∀ (fuel₁ fuel₂ : Nat) (l : List α), l.length ≤ fuel₁ → l.length ≤ fuel₂ →
      chunkWordsFuel cs fuel₁ l = chunkWordsFuel cs fuel₂ l := by
  intro fuel₁
  induction fuel₁ with
  | zero =>
    intro fuel₂ l h₁ _
    have : l = [] := List.length_eq_zero.mp (Nat.le_zero.mp h₁)
    subst this
    cases fuel₂ <;> rfl
  | succ f ih =>
    intro fuel₂ l h₁ h₂
    cases l with
    | nil => cases fuel₂ <;> rfl
    | cons w ws =>
      cases fuel₂ with
      | zero => simp at h₂
      | succ f₂ =>
        by_cases hcs : cs = 0
        · simp [chunkWordsFuel, hcs]
        · simp only [chunkWordsFuel, if_neg hcs]
          congr 1
          apply ih
          · simp only [List.length_drop, List.length_cons]
            simp only [List.length_cons] at h₁
            omega
          · simp only [List.length_drop, List.length_cons]
            simp only [List.length_cons] at h₂
            omega

theorem chunkWords_nil {α : Type} (cs : Nat) : chunkWords cs ([] : List α) = [] := rfl

theorem chunkWords_cons {α : Type} {cs : Nat} (hcs : cs ≠ 0) (w : α) (ws : List α) :
    chunkWords cs (w :: ws) =
      (w :: ws).take cs :: chunkWords cs ((w :: ws).drop cs) := by
  show chunkWordsFuel cs (ws.length + 1) (w :: ws) = _
  simp only [chunkWordsFuel, if_neg hcs]
  congr 1
  apply chunkWordsFuel_fuel_irrel
  · simp only [List.length_drop, List.length_cons]
    omega
  · exact Nat.le_refl _

/-- The page marker `create_chunks` splits on. -/
def pageMarker : String := "\n\nPage "

/-- Fuel-driven worker for the `while start < words.len()` loop: emits one
`DocumentChunk` per group of `cs` words, incrementing `chunk_idx`. -/
def chunksLoopFuel (cs : Nat) (page : Int) : Nat → List String → Int → List DocumentChunk
  | _, [], _ => []
  | 0, _ :: _, _ => []
  | fuel + 1, w :: ws, idx =>
    if cs = 0 then []
    else { text := joinSpace ((w :: ws).take cs), page_number := page, chunk_index := idx }
      :: chunksLoopFuel cs page fuel ((w :: ws).drop cs) (idx + 1)

/-- The `while start < words.len()` loop of `create_chunks` for one page. -/
def chunksLoop (cs : Nat) (page : Int) (ws : List String) (idx : Int) : List DocumentChunk :=
  chunksLoopFuel cs page ws.length ws idx

/-- The per-page part of `create_chunks`: pages are numbered from 1 and
`chunk_idx` keeps counting across pages. -/
def pagesToChunks (cs : Nat) : List (List Char) → Int → Int → List DocumentChunk
  | [], _, _ => []
  | p :: ps, page, idx =>
    let words : List String := (splitWsAux p []).map (fun l => ⟨l⟩)
    let pageChunks := chunksLoop cs page words idx
    pageChunks ++ pagesToChunks cs ps (page + 1) (idx + pageChunks.length)

/-- `create_chunks(text, chunk_size)`. -/
def create_chunks (text : String) (chunk_size : Nat) : List DocumentChunk :=
  pagesToChunks chunk_size (splitSep pageMarker.data text.data) 1 0

example : create_chunks "a b c d e" 2 =
    [⟨"a b", 1, 0⟩, ⟨"c d", 1, 1⟩, ⟨"e", 1, 2⟩] := by decide

example : create_chunks "" 5 = [] := by decide

example : create_chunks "one two\n\nPage 2 three four five" 2 =
    [⟨"one two", 1, 0⟩, ⟨"2 three", 2, 1⟩, ⟨"four five", 2, 2⟩] := by decide

/-- Ceiling division step: for `cs ≥ 1` and `L ≥ 1`,
`⌈L/cs⌉ = ⌈(L-cs)/cs⌉ + 1`. -/
theorem ceilDiv_step {cs L : Nat} (hcs : cs ≠ 0) (hL : 0 < L) :
    (L + cs - 1) / cs = ((L - cs) + cs - 1) / cs + 1 := by
  rcases Nat.le_total L cs with hle | hgt
  · have h1 : L - cs = 0 := by omega
    rw [h1]
    have hlt : cs - 1 < cs := by omega
    rw [Nat.zero_add, Nat.div_eq_of_lt hlt]
    have hlo : 1 * cs ≤ L + cs - 1 := by omega
    have hhi : L + cs - 1 < 2 * cs := by omega
    have := Nat.div_eq_of_lt_le hlo (by omega : L + cs - 1 < (1 + 1) * cs)
    omega
  · have h2 : L + cs - 1 = ((L - cs) + cs - 1) + cs := by omega
    rw [h2, Nat.add_div_right _ (by omega : 0 < cs)]

/-- Characterization of the chunking loop: with `cs > 0` it produces
`⌈|ws|/cs⌉` chunks, the `i`-th being the `i`-th `cs`-word slice joined with
single spaces, numbered `idx + i`. -/
theorem chunksLoopFuel_eq {cs : Nat} (hcs : cs ≠ 0) (page : Int) :
    ∀ (fuel : Nat) (ws : List String) (idx : Int), ws.length ≤ fuel →
      chunksLoopFuel cs page fuel ws idx =
        (List.range ((ws.length + cs - 1) / cs)).map (fun i =>
          { text := joinSpace ((ws.drop (i * cs)).take cs), page_number := page,
            chunk_index := idx + i }) := by
  intro fuel
  induction fuel with
  | zero =>
    intro ws idx h
    have : ws = [] := List.length_eq_zero.mp (Nat.le_zero.mp h)
    subst this
    simp [chunksLoopFuel, Nat.div_eq_of_lt (by omega : cs - 1 < cs)]
  | succ f ih =>
    intro ws idx h
    cases ws with
    | nil => simp [chunksLoopFuel, Nat.div_eq_of_lt (by omega : cs - 1 < cs)]
    | cons w ws' =>
      have hL : 0 < (w :: ws').length := by simp
      rw [show chunksLoopFuel cs page (f + 1) (w :: ws') idx =
        { text := joinSpace ((w :: ws').take cs), page_number := page, chunk_index := idx }
          :: chunksLoopFuel cs page f ((w :: ws').drop cs) (idx + 1) from by
          simp [chunksLoopFuel, hcs]]
      rw [ih ((w :: ws').drop cs) (idx + 1)
        (by simp only [List.length_drop, List.length_cons]; simp only [List.length_cons] at h; omega)]
      rw [show ((w :: ws').length + cs - 1) / cs =
        (((w :: ws').drop cs).length + cs - 1) / cs + 1 from by
          rw [List.length_drop]; exact ceilDiv_step hcs hL]
      rw [List.range_succ_eq_map, List.map_cons, List.map_map]
      refine congrArg₂ _ (by simp) ?_
      refine List.map_congr_left ?_
      intro i _
      simp only [Function.comp_apply, List.drop_drop]
      have h1 : cs + i * cs = Nat.succ i * cs := by rw [Nat.succ_eq_add_one]; ring
      have h2 : idx + 1 + (i : Int) = idx + (Nat.succ i : Nat) := by push_cast; ring
      rw [h1, h2]

/-- `chunksLoop` characterization. -/
theorem chunksLoop_eq {cs : Nat} (hcs : cs ≠ 0) (page : Int) (ws : List String) (idx : Int) :
    chunksLoop cs page ws idx =
      (List.range ((ws.length + cs - 1) / cs)).map (fun i =>
        { text := joinSpace ((ws.drop (i * cs)).take cs), page_number := page,
          chunk_index := idx + i }) :=
  chunksLoopFuel_eq hcs page ws.length ws idx (Nat.le_refl _)

/-- Non-whitespace characters pass through `splitWsAux` into the
accumulator. -/
theorem splitWsAux_word (l : List Char) :
    ∀ (w acc : List Char), (∀ c ∈ w, c.isWhitespace = false) →
      splitWsAux (w ++ l) acc = splitWsAux l (w.reverse ++ acc) := by
  intro w
  induction w with
  | nil => intro acc _; simp
  | cons c w' ih =>
    intro acc hw
    have hc : c.isWhitespace = false := hw c (by simp)
    show splitWsAux (c :: (w' ++ l)) acc = _
    rw [show splitWsAux (c :: (w' ++ l)) acc = splitWsAux (w' ++ l) (c :: acc) from by
      simp [splitWsAux, hc]]
    rw [ih (c :: acc) (fun d hd => hw d (by simp [hd]))]
    simp

/-- A space flushes a nonempty accumulator as one word. -/
theorem splitWsAux_space (l acc : List Char) (hacc : acc ≠ []) :
    splitWsAux (' ' :: l) acc = acc.reverse :: splitWsAux l [] := by
  simp [splitWsAux, hacc]

/-- Splitting the single-space join of well-formed words (nonempty, no
whitespace) recovers exactly those words. -/
theorem splitWhitespace_joinSpace :
    ∀ (ws : List String), (∀ w ∈ ws, w.data ≠ [] ∧ ∀ c ∈ w.data, c.isWhitespace = false) →
      splitWhitespace (joinSpace ws) = ws := by
  intro ws
  induction ws with
  | nil => intro _; rfl
  | cons w ws' ih =>
    intro hw
    obtain ⟨hwne, hwchars⟩ := hw w (by simp)
    cases ws' with
    | nil =>
      show splitWhitespace w = [w]
      unfold splitWhitespace
      rw [show w.data = w.data ++ [] from by simp, splitWsAux_word [] w.data [] hwchars]
      simp only [splitWsAux, List.append_nil]
      rw [if_neg (by simpa using hwne)]
      simp only [List.map_cons, List.map_nil, List.reverse_reverse]
    | cons w₂ ws'' =>
      show splitWhitespace (w ++ " " ++ joinSpace (w₂ :: ws'')) = w :: w₂ :: ws''
      unfold splitWhitespace
      rw [show (w ++ " " ++ joinSpace (w₂ :: ws'')).data
          = w.data ++ (' ' :: (joinSpace (w₂ :: ws'')).data) from by
        simp [String.data_append]]
      rw [splitWsAux_word _ w.data [] hwchars]
      rw [splitWsAux_space _ _ (by simpa using hwne)]
      simp only [List.map_cons, List.append_nil, List.reverse_reverse]
      have := ih (fun u hu => hw u (by simp [hu]))
      unfold splitWhitespace at this
      rw [this]

/-- Every word produced by `splitWsAux` is nonempty and whitespace-free. -/
theorem splitWsAux_words_wf :
    ∀ (l acc : List Char), (∀ c ∈ acc, c.isWhitespace = false) →
      ∀ w ∈ splitWsAux l acc, w ≠ [] ∧ ∀ c ∈ w, c.isWhitespace = false := by
  intro l
  induction l with
  | nil =>
    intro acc hacc w hwmem
    by_cases h : acc = []
    · simp [splitWsAux, h] at hwmem
    · simp only [splitWsAux, if_neg h, List.mem_singleton] at hwmem
      subst hwmem
      exact ⟨by simpa using h, fun c hc => hacc c (by simpa using hc)⟩
  | cons c cs ih =>
    intro acc hacc w hwmem
    by_cases hc : c.isWhitespace
    · by_cases h : acc = []
      · rw [show splitWsAux (c :: cs) acc = splitWsAux cs [] from by
          simp [splitWsAux, hc, h]] at hwmem
        exact ih [] (by simp) w hwmem
      · rw [show splitWsAux (c :: cs) acc = acc.reverse :: splitWsAux cs [] from by
          simp [splitWsAux, hc, h]] at hwmem
        rcases List.mem_cons.mp hwmem with h1 | h1
        · subst h1
          exact ⟨by simpa using h, fun d hd => hacc d (by simpa using hd)⟩
        · exact ih [] (by simp) w h1
    · rw [show splitWsAux (c :: cs) acc = splitWsAux cs (c :: acc) from by
        simp [splitWsAux, hc]] at hwmem
      refine ih (c :: acc) ?_ w hwmem
      intro d hd
      rcases List.mem_cons.mp hd with h1 | h1
      · subst h1; simpa using hc
      · exact hacc d h1

/-- Every word produced by `splitWhitespace` is nonempty and
whitespace-free. -/
theorem splitWhitespace_words_wf (s : String) :
    ∀ w ∈ splitWhitespace s, w.data ≠ [] ∧ ∀ c ∈ w.data, c.isWhitespace = false := by
  intro w hw
  unfold splitWhitespace at hw
  rcases List.mem_map.mp hw with ⟨l, hl, rfl⟩
  exact splitWsAux_words_wf s.data [] (by simp) l hl

/-- C5: on text with no page markers (the split on `"\n\nPage "` yields the
whole text) whose word list is `ws`, and `chunk_size = cs > 0`,
`create_chunks` produces `⌈|ws|/cs⌉` chunks; the `i`-th chunk's text is the
`i`-th `cs`-word slice joined with single spaces and splits back into
exactly that slice (so every chunk has `cs` words except possibly the last,
whose word count is `min cs (|ws| - i*cs)`); `chunk_index` runs
`0, 1, 2, ...` monotonically; and an empty word list yields zero chunks. -/
theorem claim_C5 (text : String) (cs : Nat) (ws : List String)
    (hcs : 0 < cs)
    (hpages : splitSep pageMarker.data text.data = [text.data])
    (hws : splitWhitespace text = ws) :
    create_chunks text cs = (List.range ((ws.length + cs - 1) / cs)).map (fun i =>
        { text := joinSpace ((ws.drop (i * cs)).take cs), page_number := 1,
          chunk_index := (i : Int) })
    ∧ (create_chunks text cs).length = (ws.length + cs - 1) / cs
    ∧ (create_chunks text cs).map (fun c => (splitWhitespace c.text).length)
        = (List.range ((ws.length + cs - 1) / cs)).map (fun i => min cs (ws.length - i * cs))
    ∧ (create_chunks text cs).map DocumentChunk.chunk_index
        = (List.range ((ws.length + cs - 1) / cs)).map Int.ofNat
    ∧ (∀ i, i + 1 < (ws.length + cs - 1) / cs → ((ws.drop (i * cs)).take cs).length = cs)
    ∧ (ws.length = 0 → create_chunks text cs = []) := by
  have hwf : ∀ w ∈ ws, w.data ≠ [] ∧ ∀ c ∈ w.data, c.isWhitespace = false := by
    intro w hw
    exact splitWhitespace_words_wf text w (hws ▸ hw)
  have hslicewf : ∀ i, ∀ w ∈ (ws.drop (i * cs)).take cs,
      w.data ≠ [] ∧ ∀ c ∈ w.data, c.isWhitespace = false := by
    intro i w hw
    exact hwf w (((List.take_sublist _ _).trans (List.drop_sublist _ _)).mem hw)
  have hmain : create_chunks text cs = (List.range ((ws.length + cs - 1) / cs)).map (fun i =>
      { text := joinSpace ((ws.drop (i * cs)).take cs), page_number := 1,
        chunk_index := (i : Int) }) := by
    unfold create_chunks
    rw [hpages]
    show chunksLoop cs 1 ((splitWsAux text.data []).map (fun l => ⟨l⟩)) 0
        ++ pagesToChunks cs [] 2 _ = _
    rw [show (splitWsAux text.data []).map (fun l => (⟨l⟩ : String)) = ws from hws]
    have hnil : ∀ idx : Int, pagesToChunks cs [] 2 idx = [] := fun _ => rfl
    rw [hnil, List.append_nil, chunksLoop_eq (by omega) 1 ws 0]
    refine List.map_congr_left ?_
    intro i _
    simp
  refine ⟨hmain, ?_, ?_, ?_, ?_, ?_⟩
  · rw [hmain]; simp
  · rw [hmain, List.map_map]
    refine List.map_congr_left ?_
    intro i _
    simp only [Function.comp_apply]
    rw [splitWhitespace_joinSpace _ (hslicewf i)]
    simp [List.length_take, List.length_drop]
  · rw [hmain, List.map_map]
    refine List.map_congr_left ?_
    intro i _
    rfl
  · intro i hi
    have h2 : i + 2 ≤ (ws.length + cs - 1) / cs := by omega
    have h3 : (i + 2) * cs ≤ ws.length + cs - 1 :=
      (Nat.le_div_iff_mul_le hcs).mp h2
    have h4 : (i + 2) * cs = i * cs + 2 * cs := by ring
    have h5 : cs ≤ ws.length - i * cs := by omega
    simp [List.length_take, List.length_drop]
    omega
  · intro hW0
    rw [hmain, hW0]
    rw [Nat.div_eq_of_lt (by omega : 0 + cs - 1 < cs)]
    rfl

/-- Witness for C5 at `text = "a b c"`, `chunk_size = 2`. -/
theorem claim_C5_witness :
    create_chunks "a b c" 2 = (List.range (((["a", "b", "c"] : List String).length + 2 - 1) / 2)).map
      (fun i =>
        { text := joinSpace (((["a", "b", "c"] : List String).drop (i * 2)).take 2),
          page_number := 1, chunk_index := (i : Int) }) :=
  (claim_C5 "a b c" 2 ["a", "b", "c"] (by decide) (by decide) (by decide)).1

/-!
### JSON values and `serde_json::from_str::<Vec<Insight>>`
(`src/providers/document/insights.rs`, `parse_insights_response`)

JSON numbers are modelled as exact rationals (`serde_json` parses them into
`f32`/`f64`; the claims only compare the literals `0.8`/`0.9`, where the
exact-decimal reading matches the spec).  `\uXXXX` string escapes are not
modelled (no claim exercises them): a response using them falls through to
the next recovery stage.
-/

inductive Json where
  | null
  | bool (b : Bool)
  | num (q : Rat)
  | str (s : String)
  | arr (items : List Json)
  | obj (fields : List (String × Json))

/-- Digit run to a natural number. -/
def digitsToNat (l : List Char) : Nat :=
  l.foldl (fun n c => n * 10 + (c.toNat - 48)) 0

/-- Single-character JSON string escapes. -/
def escapeChar (c : Char) : Option Char :=
  if c = dquoteChar then some dquoteChar
  else if c = '\\' then some '\\'
  else if c = '/' then some '/'
  else if c = 'b' then some (Char.ofNat 8)
  else if c = 'f' then some (Char.ofNat 12)
  else if c = 'n' then some '\n'
  else if c = 'r' then some '\r'
  else if c = 't' then some '\t'
  else none

/-- JSON string body (after the opening quote): returns the decoded
characters and the input after the closing quote. -/
def parseStrBody : List Char → Option (List Char × List Char)
  | [] => none
  | c :: rest =>
    if c = dquoteChar then some ([], rest)
    else if c = '\\' then
      match rest with
      | [] => none
      | e :: rest2 =>
        match escapeChar e with
        | some d => (parseStrBody rest2).map (fun p => (d :: p.1, p.2))
        | none => none
    else (parseStrBody rest).map (fun p => (c :: p.1, p.2))

/-- Optional exponent part of a JSON number; `some (e, rest)` with `e = 0`
when no exponent is present. -/
def parseExpPart : List Char → Option (Int × List Char)
  | [] => some (0, [])
  | c :: rest =>
    if c = 'e' ∨ c = 'E' then
      let (sgn, r2) : Int × List Char :=
        match rest with
        | d :: r => if d = '+' then (1, r) else if d = '-' then (-1, r) else (1, rest)
        | [] => (1, [])
      let ds := r2.takeWhile Char.isDigit
      if ds.isEmpty then none
      else some (sgn * (digitsToNat ds : Int), r2.drop ds.length)
    else some (0, c :: rest)

/-- JSON number: optional sign, integer digits, optional fraction, optional
exponent, valued exactly as a rational. -/
def parseNumber (l : List Char) : Option (Rat × List Char) :=
  let (neg, l1) : Bool × List Char :=
    match l with
    | c :: rest => if c = '-' then (true, rest) else (false, c :: rest)
    | [] => (false, [])
  let intDigits := l1.takeWhile Char.isDigit
  let l2 := l1.drop intDigits.length
  if intDigits.isEmpty then none
  else
    let hasDot : Bool := match l2 with | c :: _ => c = '.' | [] => false
    let fracDigits := if hasDot then (l2.drop 1).takeWhile Char.isDigit else []
    let l3 := if hasDot then (l2.drop 1).drop fracDigits.length else l2
    if hasDot ∧ fracDigits.isEmpty then none
    else
      match parseExpPart l3 with
      | none => none
      | some (e, l4) =>
        let m : Int := (digitsToNat intDigits : Int) * (10 : Int) ^ fracDigits.length
          + (digitsToNat fracDigits : Int)
        let m : Int := if neg then -m else m
        let mag : Rat :=
          if 0 ≤ e then mkRat (m * (10 : Int) ^ e.toNat) ((10 : Nat) ^ fracDigits.length)
          else mkRat m ((10 : Nat) ^ (fracDigits.length + (-e).toNat))
        some (mag, l4)

mutual

/-- JSON value parser (fuel-driven; each nesting level consumes at least one
character, so fuel `2*|input|+4` always suffices — insufficient fuel only
makes the parse fail, which ends in the recovery fallback exactly like a
malformed document). -/
def parseVal : Nat → List Char → Option (Json × List Char)
  | 0, _ => none
  | fuel + 1, l =>
    match l.dropWhile Char.isWhitespace with
    | [] => none
    | c :: rest =>
      if c = dquoteChar then (parseStrBody rest).map (fun p => (Json.str ⟨p.1⟩, p.2))
      else if c = '[' then
        match rest.dropWhile Char.isWhitespace with
        | c2 :: r2 =>
          if c2 = ']' then some (Json.arr [], r2)
          else (parseArrTail fuel rest).map (fun p => (Json.arr p.1, p.2))
        | [] => none
      else if c = lbraceChar then
        match rest.dropWhile Char.isWhitespace with
        | c2 :: r2 =>
          if c2 = rbraceChar then some (Json.obj [], r2)
          else (parseObjTail fuel rest).map (fun p => (Json.obj p.1, p.2))
        | [] => none
      else if startsWithList "true".data (c :: rest) then some (Json.bool true, (c :: rest).drop 4)
      else if startsWithList "false".data (c :: rest) then some (Json.bool false, (c :: rest).drop 5)
      else if startsWithList "null".data (c :: rest) then some (Json.null, (c :: rest).drop 4)
      else (parseNumber (c :: rest)).map (fun p => (Json.num p.1, p.2))

/-- Comma-separated items of a nonempty JSON array, up to `]`. -/
def parseArrTail : Nat → List Char → Option (List Json × List Char)
  | 0, _ => none
  | fuel + 1, l => do
    let (v, r) ← parseVal fuel l
    match r.dropWhile Char.isWhitespace with
    | c :: r2 =>
      if c = ',' then (parseArrTail fuel r2).map (fun p => (v :: p.1, p.2))
      else if c = ']' then some ([v], r2)
      else none
    | [] => none

/-- Key-value pairs of a nonempty JSON object, up to the closing brace. -/
def parseObjTail : Nat → List Char → Option (List (String × Json) × List Char)
  | 0, _ => none
  | fuel + 1, l =>
    match l.dropWhile Char.isWhitespace with
    | c :: rest =>
      if c = dquoteChar then do
        let (k, r1) ← parseStrBody rest
        match r1.dropWhile Char.isWhitespace with
        | c2 :: r2 =>
          if c2 = ':' then do
            let (v, r3) ← parseVal fuel r2
            match r3.dropWhile Char.isWhitespace with
            | c3 :: r4 =>
              if c3 = ',' then (parseObjTail fuel r4).map (fun p => ((⟨k⟩, v) :: p.1, p.2))
              else if c3 = rbraceChar then some ([(⟨k⟩, v)], r4)
              else none
            | [] => none
          else none
        | [] => none
      else none
    | [] => none

end

/-- `serde_json::from_str::<Value>`: one JSON document with only trailing
whitespace allowed. -/
def json_from_str (s : String) : Option Json :=
  match parseVal (2 * s.data.length + 4) s.data with
  | some (v, rest) => if rest.dropWhile Char.isWhitespace = [] then some v else none
  | none => none

/-- Struct `Insight` (`text`, `relevance: f32`, optional embedding and
metadata). -/
structure Insight where
  text : String
  relevance : Rat
  embedding : Option (List Rat)
  metadata : Option Json

/-- First binding of a key in a JSON object (serde rejects duplicate
fields; no claim exercises duplicates, so the first binding is taken). -/
def jLookup (fields : List (String × Json)) (k : String) : Option Json :=
  (fields.find? (fun f => f.1 = k)).map (fun f => f.2)

/-- A JSON number, for `Vec<f32>` elements. -/
def asNum : Json → Option Rat
  | Json.num q => some q
  | _ => none

/-- serde's derived `Deserialize` for `Insight`: `text` must be a string,
`relevance` a number; `embedding`/`metadata` are `Option` fields (missing or
`null` decodes to `None`); unknown fields are ignored. -/
def insightOfJson : Json → Option Insight
  | Json.obj fields => do
    let t ← match jLookup fields "text" with
      | some (Json.str s) => some s
      | _ => none
    let r ← match jLookup fields "relevance" with
      | some (Json.num q) => some q
      | _ => none
    let emb ← match jLookup fields "embedding" with
      | none => some none
      | some Json.null => some none
      | some (Json.arr xs) => (xs.mapM asNum).map some
      | some _ => none
    let md : Option Json := match jLookup fields "metadata" with
      | none => none
      | some Json.null => none
      | some v => some v
    pure { text := t, relevance := r, embedding := emb, metadata := md }
  | _ => none

/-- `serde_json::from_str::<Vec<Insight>>`. -/
def insights_from_str (s : String) : Option (List Insight) :=
  match json_from_str s with
  | some (Json.arr items) => items.mapM insightOfJson
  | _ => none

/-- The cleaning chain of `parse_insights_response`:
`trim → trim_matches of backtick → trim_start_matches "json" →
trim_start_matches "JSON" → replace apostrophes with double quotes →
trim`. -/
def cleanedResponse (response : String) : String :=
  ⟨trimList (replaceCharList aposChar dquoteChar
    (trimStartMatchesList "JSON".data
      (trimStartMatchesList "json".data
        (trimMatchesChar btickChar (trimList response.data)))))⟩

/-- The opening-brace string used by the bare-object test. -/
def lbraceStr : String := ⟨[lbraceChar]⟩

/-- The closing-brace string used by the bare-object test. -/
def rbraceStr : String := ⟨[rbraceChar]⟩

/-- Rust `str::starts_with(pat)`. -/
def startsWithStr (p s : String) : Bool := startsWithList p.data s.data

/-- Rust `str::ends_with(pat)`. -/
def endsWithStr (p s : String) : Bool := startsWithList p.data.reverse s.data.reverse

/-- Stage (b) of the recovery chain: wrap a bare object, or a body that does
not start with an opening bracket, in `[...]`. -/
def fixedResponse (cleaned : String) : String :=
  if startsWithStr lbraceStr cleaned = true ∧ endsWithStr rbraceStr cleaned = true then
    "[" ++ cleaned ++ "]"
  else if ¬ startsWithStr "[" cleaned = true then
    "[" ++ cleaned ++ "]"
  else cleaned

/-- Stage (c): one insight per non-blank line of the raw response, with the
fixed default relevance `0.8`. -/
def lineFallback (response : String) : List Insight :=
  ((rustLines response).filter (fun line => !(rustTrim line).data.isEmpty)).map
    (fun line =>
      { text := rustTrim line, relevance := mkRat 8 10, embedding := none, metadata := none })

/-- `parse_insights_response`. -/
def parse_insights_response (response : String) : Except String (List Insight) :=
  let cleaned_response := cleanedResponse response
  match insights_from_str cleaned_response with
  | some insights => Except.ok insights
  | none =>
    match insights_from_str (fixedResponse cleaned_response) with
    | some insights => Except.ok insights
    | none => Except.ok (lineFallback response)

example : json_from_str "[]" = some (Json.arr []) := rfl

example :
    parse_insights_response "```json\n[\x7b'text': 'a', 'relevance': 0.9\x7d]\n```"
      = Except.ok [{ text := "a", relevance := mkRat 9 10, embedding := none, metadata := none }] := rfl

/-- C8: `parse_insights_response` returns `Ok` on every input — the
three-stage chain (parse as-is; re-parse the bracket-wrapped fix-up; fall
back to one insight per non-blank raw line) never propagates a parse
failure. -/
theorem claim_C8 (response : String) :
    ∃ insights, parse_insights_response response = Except.ok insights := by
  unfold parse_insights_response
  rcases h1 : insights_from_str (cleanedResponse response) with _ | l
  · rcases h2 : insights_from_str (fixedResponse (cleanedResponse response)) with _ | l2
    · refine ⟨lineFallback response, ?_⟩
      simp only [h1, h2]
    · refine ⟨l2, ?_⟩
      simp only [h1, h2]
  · refine ⟨l, ?_⟩
    simp only [h1]

/-- C9: the fenced, single-quoted input parses to exactly one insight with
text `"a"` and relevance `0.9`. -/
theorem claim_C9 :
    parse_insights_response "```json\n[\x7b'text': 'a', 'relevance': 0.9\x7d]\n```"
      = Except.ok [{ text := "a", relevance := 9 / 10, embedding := none, metadata := none }] := by
  have h : (mkRat 9 10) = (9 / 10 : Rat) := by
    rw [Rat.mkRat_eq_div]
    norm_num
  rw [← h]
  rfl

/-!
### Document processing pipeline
(`src/providers/document/insights.rs`, `process_document` / `process_chunk`)

The completion-driven insight extraction (`extract_insights`: prompt,
DeepSeek completion, `parse_insights_response`) and the embedding provider
(`generate_embedding`) are external model calls, passed in as oracles
`extract : String → Option (List Insight)` (`none` = completion failure,
which makes `process_chunk` return an `Err` the caller skips) and
`embed : String → Option (List Rat)` (`none` = embedding failure).  The
result records, besides the returned insights and the points upserted to
the `document_chunks` collection, the exact inputs sent to each provider,
so that claims about which calls are made are statable.
-/

/-- Struct `ProcessedChunk` (cache value). -/
structure ProcessedChunk where
  chunk : DocumentChunk
  embedding : Option (List Rat)
  insights : List Insight

/-- One point of the batch upserted to `document_chunks`: payload `text`,
`page`, `chunk`, plus its vector (the random uuid id is omitted). -/
structure ChunkPoint where
  text : String
  page : Int
  chunk : Int
  vector : List Rat
deriving DecidableEq

/-- `format!("page_{}_chunk_{}", page, chunk_index)`. -/
def cacheKey (page chunk_index : Int) : String :=
  "page_" ++ toString page ++ "_chunk_" ++ toString chunk_index

/-- `LruCache::put` with the capacity 100 fixed in `InsightExtractor::new`:
most-recently-used first, key deduplicated, least-recently-used dropped
beyond 100 entries. -/
def cachePut (key : String) (v : ProcessedChunk) (cache : List (String × ProcessedChunk)) :
    List (String × ProcessedChunk) :=
  ((key, v) :: cache.filter (fun e => e.1 ≠ key)).take 100

/-- `get_cached_chunk`: `LruCache::get` by key (the use-order refresh does
not affect lookups and is omitted). -/
def get_cached_chunk (cache : List (String × ProcessedChunk)) (key : String) :
    Option ProcessedChunk :=
  (cache.find? (fun e => e.1 = key)).map (fun e => e.2)

/-- The metadata attached to each insight by `process_chunk`: `page` and
`chunk` of the chunk, extended with the document metadata's object
entries. -/
def mergedMeta (chunk : DocumentChunk) (metadata : Option Json) : Json :=
  Json.obj ([("page", Json.num (chunk.page_number : Rat)),
    ("chunk", Json.num (chunk.chunk_index : Rat))] ++
    (match metadata with
     | some (Json.obj fields) => fields
     | _ => []))

/-- `process_chunk`: extract insights for the chunk (failure propagates as
`none`), then stamp every insight with the merged metadata and the chunk
embedding handed in by `process_document`. -/
def process_chunk (extract : String → Option (List Insight)) (chunk : DocumentChunk)
    (embedding : Option (List Rat)) (metadata : Option Json) :
    Option (List Insight × ProcessedChunk) :=
  match extract chunk.text with
  | none => none
  | some ins0 =>
    let ins := ins0.map (fun i =>
      { i with metadata := some (mergedMeta chunk metadata), embedding := embedding })
    some (ins, { chunk := chunk, embedding := embedding, insights := ins })

/-- The points contributed by one processed chunk: one per present
embedding. -/
def pcPoints (pc : ProcessedChunk) : List ChunkPoint :=
  match pc.embedding with
  | some e =>
    [{ text := pc.chunk.text, page := pc.chunk.page_number,
       chunk := pc.chunk.chunk_index, vector := e }]
  | none => []

/-- The `for result in chunk_results` loop of `process_document`: skip
failed chunks, cache each processed chunk, collect insights and points. -/
def collectResults :
    List (Option (List Insight × ProcessedChunk)) → List (String × ProcessedChunk) →
      List Insight × List ChunkPoint × List (String × ProcessedChunk)
  | [], cache => ([], [], cache)
  | none :: rest, cache => collectResults rest cache
  | some (ins, pc) :: rest, cache =>
    let cache2 := cachePut (cacheKey pc.chunk.page_number pc.chunk.chunk_index) pc cache
    let r := collectResults rest cache2
    (ins ++ r.1, pcPoints pc ++ r.2.1, r.2.2)

/-- Result of `process_document`, with the provider call logs. -/
structure PDResult where
  insights : List Insight
  points : List ChunkPoint
  cache : List (String × ProcessedChunk)
  embed_inputs : List String
  extract_inputs : List String

/-- The body of `process_document` after `create_chunks`: batch the chunk
texts in groups of 20, embed each group (`join_all` keeps the group's
order; `filter_map(Result::ok)` keeps only the successes, in order), pair
chunk `i` with `embeddings.get(i)`, process every chunk, then collect.
`embed_inputs`/`extract_inputs` record that `generate_embedding` is awaited
for every text of every group and `process_chunk` extracts insights for
every chunk. -/
def processChunksStage (embed : String → Option (List Rat))
    (extract : String → Option (List Insight)) (cache : List (String × ProcessedChunk))
    (chunks : List DocumentChunk) (metadata : Option Json) : PDResult :=
  let texts := chunks.map (fun c => c.text)
  let embeddings : Option (List (List Rat)) :=
    if texts.isEmpty then none
    else some ((chunkWords 20 texts).flatMap (fun grp => (grp.map embed).filterMap id))
  let results := chunks.enum.map (fun ic =>
    process_chunk extract ic.2 (embeddings.bind (fun e => e.get? ic.1)) metadata)
  let collected := collectResults results cache
  { insights := collected.1, points := collected.2.1, cache := collected.2.2,
    embed_inputs := if texts.isEmpty then [] else (chunkWords 20 texts).flatMap (fun grp => grp),
    extract_inputs := texts }

/-- `process_document(text, metadata)` (chunk size fixed at 1000). -/
def process_document (embed : String → Option (List Rat))
    (extract : String → Option (List Insight)) (cache : List (String × ProcessedChunk))
    (text : String) (metadata : Option Json) : PDResult :=
  processChunksStage embed extract cache (create_chunks text 1000) metadata

/-- Flattening the 20-groups (or any `cs > 0` grouping) recovers the full
text list: every text is embedded exactly once, in order. -/
theorem chunkWordsFuel_flatten {α : Type} {cs : Nat} (hcs : cs ≠ 0) :
    ∀ (fuel : Nat) (l : List α), l.length ≤ fuel →
      (chunkWordsFuel cs fuel l).flatMap (fun g => g) = l := by
  intro fuel
  induction fuel with
  | zero =>
    intro l h
    have : l = [] := List.length_eq_zero.mp (Nat.le_zero.mp h)
    subst this
    rfl
  | succ f ih =>
    intro l h
    cases l with
    | nil => rfl
    | cons w ws =>
      rw [show chunkWordsFuel cs (f + 1) (w :: ws)
          = (w :: ws).take cs :: chunkWordsFuel cs f ((w :: ws).drop cs) from by
        simp [chunkWordsFuel, hcs]]
      rw [List.flatMap_cons]
      rw [ih ((w :: ws).drop cs) (by
        simp only [List.length_drop, List.length_cons]
        simp only [List.length_cons] at h
        omega)]
      exact List.take_append_drop cs (w :: ws)

/-- `chunkWords` version of the flattening lemma. -/
theorem chunkWords_flatten {α : Type} {cs : Nat} (hcs : cs ≠ 0) (l : List α) :
    (chunkWords cs l).flatMap (fun g => g) = l :=
  chunkWordsFuel_flatten hcs l.length l (Nat.le_refl _)

/-- The insights and points collected by the result loop do not depend on
the incoming cache contents (the cache is only written, never read). -/
theorem collectResults_cache_irrel :
    ∀ (results : List (Option (List Insight × ProcessedChunk)))
      (c₁ c₂ : List (String × ProcessedChunk)),
      (collectResults results c₁).1 = (collectResults results c₂).1
      ∧ (collectResults results c₁).2.1 = (collectResults results c₂).2.1 := by
  intro results
  induction results with
  | nil => intro c₁ c₂; exact ⟨rfl, rfl⟩
  | cons r rest ih =>
    intro c₁ c₂
    cases r with
    | none => exact ih c₁ c₂
    | some p =>
      obtain ⟨ins, pc⟩ := p
      simp only [collectResults]
      exact ⟨congrArg _ (ih _ _).1, congrArg _ (ih _ _).2⟩

/-- The five-chunk document of the embedding-failure scenario (each chunk
on page 1, indices 0..4). -/
def c1Chunks : List DocumentChunk :=
  [⟨"alpha", 1, 0⟩, ⟨"bravo", 1, 1⟩, ⟨"carol", 1, 2⟩, ⟨"delta", 1, 3⟩, ⟨"echo", 1, 4⟩]

/-- An embedding backend failing exactly on `"alpha"`; each other text
embeds to the (distinctive) code point of its first character. -/
def c1Embed : String → Option (List Rat) :=
  fun t => if t = "alpha" then none else some [mkRat (Int.ofNat (t.data.headD ' ').toNat) 1]

/-- A completion backend returning one insight per chunk, echoing the
chunk's text. -/
def c1Extract : String → Option (List Insight) :=
  fun t => some [{ text := t, relevance := mkRat 1 1, embedding := none, metadata := none }]

/-- C1, evaluated at the failing input: when the embedding backend fails
for exactly one of five chunks (`"alpha"`, the first), the pipeline still
returns all five chunks' insights and upserts exactly four vectors — but
`filter_map(Result::ok)` compacts the batch and `embeddings.get(i)` shifts
the pairing, so chunk `"alpha"` is stored with `"bravo"`'s embedding (code
point 98) and so on: a vector is upserted whose payload text is not the
text it embeds, contradicting index-preserved association. -/
theorem claim_C1 :
    (processChunksStage c1Embed c1Extract [] c1Chunks none).insights.map (fun i => i.text)
        = ["alpha", "bravo", "carol", "delta", "echo"]
    ∧ (processChunksStage c1Embed c1Extract [] c1Chunks none).points.length = 4
    ∧ (processChunksStage c1Embed c1Extract [] c1Chunks none).points.map (fun p => p.chunk)
        = [0, 1, 2, 3]
    ∧ (processChunksStage c1Embed c1Extract [] c1Chunks none).points.map
        (fun p => (p.text, p.vector))
        = [("alpha", [mkRat 98 1]), ("bravo", [mkRat 99 1]), ("carol", [mkRat 100 1]),
           ("delta", [mkRat 101 1])]
    ∧ c1Embed "alpha" = none
    ∧ c1Embed "bravo" = some [mkRat 98 1]
    ∧ (∃ p ∈ (processChunksStage c1Embed c1Extract [] c1Chunks none).points,
        c1Embed p.text ≠ some p.vector) := by
  decide

/-- A processed chunk sitting in the cache under the key of page 1, chunk 0,
with recognizable insights. -/
def c2CachedPC : ProcessedChunk :=
  { chunk := ⟨"hello world", 1, 0⟩, embedding := some [mkRat 7 1],
    insights :=
      [{ text := "cached insight", relevance := mkRat 1 1,
         embedding := none, metadata := none }] }

/-- A cache state already holding the key `page_1_chunk_0`. -/
def c2Cache : List (String × ProcessedChunk) := [("page_1_chunk_0", c2CachedPC)]

/-- An embedding backend used in the C2 counterexample. -/
def c2Embed : String → Option (List Rat) := fun _ => some [mkRat 5 1]

/-- A completion backend returning a recognizably fresh insight. -/
def c2Extract : String → Option (List Insight) :=
  fun t => some
    [{ text := "fresh " ++ t, relevance := mkRat 1 1,
       embedding := none, metadata := none }]

/-- Counterexample to C2: the chunk key `page_1_chunk_0` is already in the
cache when `process_document` runs on `"hello world"` (one chunk, page 1,
index 0), yet its text is still sent to both the embedding provider and the
completion provider, and the returned insight is the freshly extracted one,
not the cached one. -/
theorem claim_C2_cex :
    (get_cached_chunk c2Cache (cacheKey 1 0)).isSome = true
    ∧ (process_document c2Embed c2Extract c2Cache "hello world" none).embed_inputs
        = ["hello world"]
    ∧ (process_document c2Embed c2Extract c2Cache "hello world" none).extract_inputs
        = ["hello world"]
    ∧ (process_document c2Embed c2Extract c2Cache "hello world" none).insights.map
        (fun i => i.text) = ["fresh hello world"]
    ∧ c2CachedPC.insights.map (fun i => i.text) = ["cached insight"] := by
  decide

/-- C2 as amended: `process_document` never reads the chunk cache.  Every
chunk's text is sent to the embedding provider and to the completion
provider whatever the cache holds, and the returned insights and upserted
points are independent of the cache contents; the cache is only written
(under key `page_p_chunk_i`), to be read by `search_document`. -/
theorem claim_C2 (embed : String → Option (List Rat))
    (extract : String → Option (List Insight))
    (cache cache₂ : List (String × ProcessedChunk)) (text : String) (metadata : Option Json) :
    (process_document embed extract cache text metadata).embed_inputs
        = (create_chunks text 1000).map (fun c => c.text)
    ∧ (process_document embed extract cache text metadata).extract_inputs
        = (create_chunks text 1000).map (fun c => c.text)
    ∧ (process_document embed extract cache text metadata).insights
        = (process_document embed extract cache₂ text metadata).insights
    ∧ (process_document embed extract cache text metadata).points
        = (process_document embed extract cache₂ text metadata).points := by
  refine ⟨?_, ?_, ?_, ?_⟩
  · show (if ((create_chunks text 1000).map (fun c => c.text)).isEmpty then []
      else (chunkWords 20 ((create_chunks text 1000).map (fun c => c.text))).flatMap
        (fun grp => grp))
      = (create_chunks text 1000).map (fun c => c.text)
    by_cases h : ((create_chunks text 1000).map (fun c => c.text)).isEmpty
    · rw [if_pos h]
      exact (List.isEmpty_iff.mp h).symm
    · rw [if_neg h]
      exact chunkWords_flatten (by omega) _
  · rfl
  · exact (collectResults_cache_irrel _ _ _).1
  · exact (collectResults_cache_irrel _ _ _).2

/-!
### Conversation memory (`src/llm/memory.rs`, `src/database/vector_db.rs`)

Timestamps (`DateTime<Utc>`) are modelled as integer seconds; the rfc3339
rendering and `DateTime::parse_from_rfc3339` are oracles
(`tsRender : Int → String`, `parseTs : String → Option Int`).  The Qdrant
server is external: `upsert` oracles stand for
`client.upsert_points`, and search results are handed in as the candidate
list the server returned.  `Uuid::new_v4` values are explicit `fresh`
parameters. -/

/-- Struct `Memory`. -/
structure Memory where
  text : String
  timestamp : Int
  role : String
  session_id : String
  importance : Rat
  topic_tags : List String
  metadata : Option (List (String × String))
deriving DecidableEq

/-- Struct `ConversationSession`. -/
structure ConversationSession where
  id : String
  start_time : Int
  topic : String
  summary : String
  last_active : Int
deriving DecidableEq

/-- Enum `VectorDBError` — note: `Connection`, `Operation`,
`CollectionExists` are its only variants. -/
inductive VectorDBError where
  | connection (msg : String)
  | operation (msg : String)
  | collectionExists (msg : String)
deriving DecidableEq

/-- The `thiserror` display strings of `VectorDBError`. -/
def errString : VectorDBError → String
  | VectorDBError.connection m => "Connection error: " ++ m
  | VectorDBError.operation m => "Operation failed: " ++ m
  | VectorDBError.collectionExists m => "Collection exists: " ++ m

/-- `VectorDB::store_vector`: generate a point id (passed in as
`point_id`), convert the payload (identity in this model), upsert through
the index oracle, wrap an index failure as `Operation`, and return the
generated id on success.  Note there is no dimension check here. -/
def store_vector (upsert : String → List Rat → List (String × Json) → Except String Unit)
    (point_id : String) (collection : String) (vector : List Rat)
    (payload : List (String × Json)) : Except VectorDBError String :=
  match upsert collection vector payload with
  | Except.ok _ => Except.ok point_id
  | Except.error e => Except.error (VectorDBError.operation e)

/-- The payload `store_memory` writes: all of `text`, `timestamp`, `role`,
`session_id`, `importance`, `topic_tags`, and `metadata` when present. -/
def storeMemoryPayload (tsRender : Int → String) (memory : Memory) : List (String × Json) :=
  [("text", Json.str memory.text),
   ("timestamp", Json.str (tsRender memory.timestamp)),
   ("role", Json.str memory.role),
   ("session_id", Json.str memory.session_id),
   ("importance", Json.num memory.importance),
   ("topic_tags", Json.arr (memory.topic_tags.map Json.str))]
  ++ (match memory.metadata with
      | some m => [("metadata", Json.obj (m.map (fun kv => (kv.1, Json.str kv.2))))]
      | none => [])

/-- `MemoryManager::store_memory`: build the `Memory` (session id from the
current session or `"default"`, importance `1.0`, no tags), serialize the
payload, store through `store_vector` on `"conversation_memory"`, and map
an error into the `anyhow` message.  No dimension check appears here
either. -/
def store_memory (upsert : String → List Rat → List (String × Json) → Except String Unit)
    (tsRender : Int → String) (point_id : String)
    (current_session : Option ConversationSession) (now : Int)
    (text role : String) (embedding : List Rat)
    (metadata : Option (List (String × String))) : Except String String :=
  let session_id := match current_session with
    | some session => session.id
    | none => "default"
  let memory : Memory :=
    { text := text, timestamp := now, role := role, session_id := session_id,
      importance := 1, topic_tags := [], metadata := metadata }
  match store_vector upsert point_id "conversation_memory" embedding
      (storeMemoryPayload tsRender memory) with
  | Except.ok id => Except.ok id
  | Except.error e => Except.error ("Failed to store memory: " ++ errString e)

/-- A JSON string. -/
def asStr : Json → Option String
  | Json.str s => some s
  | _ => none

/-- `serde_json::from_value::<HashMap<String, String>>(...).ok()`. -/
def jsonToStrMap : Json → Option (List (String × String))
  | Json.obj fields => fields.mapM (fun kv =>
      match kv.2 with
      | Json.str v => some (kv.1, v)
      | _ => none)
  | _ => none

/-- The per-point decoding of `search_similar`: `text`, `timestamp`
(rfc3339-parsed), and `role` are required; `metadata` is optional;
`session_id`, `importance`, and `topic_tags` are NOT read back — they are
filled with `""`, `1.0`, and `[]`. -/
def decodeMemory (parseTs : String → Option Int) (payload : List (String × Json)) :
    Option Memory := do
  let text ← (jLookup payload "text").bind asStr
  let timestamp ← ((jLookup payload "timestamp").bind asStr).bind parseTs
  let role ← (jLookup payload "role").bind asStr
  let metadata := (jLookup payload "metadata").bind jsonToStrMap
  pure { text := text, timestamp := timestamp, role := role, metadata := metadata,
         session_id := "", importance := 1, topic_tags := [] }

/-- `MemoryManager::search_similar`, applied to the candidate list the
vector index returned (id, score, payload): decode each payload, dropping
undecodable ones. -/
def search_similar (parseTs : String → Option Int)
    (results : List (String × Rat × List (String × Json))) : List Memory :=
  results.filterMap (fun r => decodeMemory parseTs r.2.2)

/-- `MemoryManager::search_by_session`: over-fetch (the zero-vector,
limit-100 candidate list is `results`) and filter by `session_id`
client-side. -/
def search_by_session (parseTs : String → Option Int)
    (results : List (String × Rat × List (String × Json)))
    (session_id : String) : List Memory :=
  (search_similar parseTs results).filter (fun m => m.session_id = session_id)

/-- `chrono::Duration::num_minutes` on a duration of `secs` seconds:
truncating division. -/
def num_minutes (secs : Int) : Int := Int.tdiv secs 60

/-- `MemoryManager::start_new_session` (fresh uuid passed in): the new
current session starts now and the fresh id is returned. -/
def start_new_session (fresh_id : String) (now : Int) (topic : String) :
    String × Option ConversationSession :=
  let session : ConversationSession :=
    { id := fresh_id, start_time := now, topic := topic, summary := "", last_active := now }
  (session.id, some session)

/-- `MemoryManager::get_or_create_session`: keep the current session (and
refresh `last_active`) when strictly less than 30 whole minutes have
passed; otherwise start a new session with topic defaulted to
`"General Conversation"`. -/
def get_or_create_session (current : Option ConversationSession) (now : Int)
    (fresh_id : String) (topic : Option String) : String × Option ConversationSession :=
  match current with
  | some session =>
    if num_minutes (now - session.last_active) < 30 then
      (session.id, some { session with last_active := now })
    else start_new_session fresh_id now (topic.getD "General Conversation")
  | none => start_new_session fresh_id now (topic.getD "General Conversation")

/-- Truncating and euclidean division by 60 agree on nonnegative
durations. -/
theorem tdiv60_eq_ediv {a : Int} (h : 0 ≤ a) : Int.tdiv a 60 = a / 60 := by
  obtain ⟨m, rfl⟩ := Int.eq_ofNat_of_zero_le h
  rfl

/-- An index oracle that accepts every upsert, whatever the vector length. -/
def c3AcceptAll : String → List Rat → List (String × Json) → Except String Unit :=
  fun _ _ _ => Except.ok ()

/-- Counterexample to C3 as stated: the memory store itself raises no
dimension error — with an index that accepts the upsert, `store_memory`
succeeds on a 3-element vector (3 ≠ 1536) and returns the generated id;
also no `DimensionError` variant exists in `VectorDBError`. -/
theorem claim_C3_cex :
    ([mkRat 1 1, mkRat 2 1, mkRat 3 1].length ≠ 1536)
    ∧ store_memory c3AcceptAll (fun n => toString n) "pid-1" none 0 "hello" "user"
        [mkRat 1 1, mkRat 2 1, mkRat 3 1] none = Except.ok "pid-1" := by
  exact ⟨by decide, rfl⟩

/-- Modelled from the spec: the external Qdrant index, missing from this
repository, enforces the fixed dimension of the collection
(`MemoryManager::new` creates `conversation_memory` with size 1536; "any
vector produced or consumed outside that length is a hard error").  The
repository's own code contains no dimension check. -/
def indexUpsert1536 : String → List Rat → List (String × Json) → Except String Unit :=
  fun _ vector _ =>
    if vector.length = 1536 then Except.ok () else Except.error "dimension mismatch"

/-- C3 as amended: the dimension rejection comes from the vector index, not
the memory store.  Against an index enforcing dimension 1536,
`store_memory` fails for `len(embedding) ≠ 1536` — surfacing the index
rejection as `VectorDBError::Operation` wrapped into the anyhow message —
with no record indexed, and succeeds for `len(embedding) = 1536`,
returning the id generated in `store_vector`. -/
theorem claim_C3 (tsRender : Int → String) (point_id : String)
    (current_session : Option ConversationSession) (now : Int) (text role : String)
    (embedding : List Rat) (metadata : Option (List (String × String))) :
    (embedding.length ≠ 1536 →
      store_memory indexUpsert1536 tsRender point_id current_session now text role
          embedding metadata
        = Except.error ("Failed to store memory: "
            ++ errString (VectorDBError.operation "dimension mismatch")))
    ∧ (embedding.length = 1536 →
      store_memory indexUpsert1536 tsRender point_id current_session now text role
          embedding metadata
        = Except.ok point_id) := by
  constructor
  · intro h
    simp only [store_memory, store_vector, indexUpsert1536, if_neg h]
  · intro h
    simp only [store_memory, store_vector, indexUpsert1536, if_pos h]

/-- Witness for C3 at a 1-element and a 1536-element vector. -/
theorem claim_C3_witness :
    store_memory indexUpsert1536 (fun n => toString n) "pid-2" none 0 "t" "user"
        [mkRat 1 1] none
      = Except.error ("Failed to store memory: "
          ++ errString (VectorDBError.operation "dimension mismatch"))
    ∧ store_memory indexUpsert1536 (fun n => toString n) "pid-2" none 0 "t" "user"
        (List.replicate 1536 (mkRat 0 1)) none
      = Except.ok "pid-2" :=
  ⟨(claim_C3 (fun n => toString n) "pid-2" none 0 "t" "user" [mkRat 1 1] none).1
      (by decide),
   (claim_C3 (fun n => toString n) "pid-2" none 0 "t" "user"
      (List.replicate 1536 (mkRat 0 1)) none).2 (List.length_replicate 1536 (mkRat 0 1))⟩

/-- C10: every `Memory` decoded by `search_similar` — whatever the stored
payload and however the timestamp parser behaves — carries
`session_id = ""`, `importance = 1.0`, and `topic_tags = []`; and
`store_memory` does write `session_id`, `importance`, and `topic_tags`
into the payload it stores. -/
theorem claim_C10 (parseTs : String → Option Int)
    (results : List (String × Rat × List (String × Json))) (m : Memory)
    (hm : m ∈ search_similar parseTs results) :
    m.session_id = "" ∧ m.importance = 1 ∧ m.topic_tags = []
    ∧ (∀ (tsRender : Int → String) (memory : Memory),
        ("session_id", Json.str memory.session_id) ∈ storeMemoryPayload tsRender memory
        ∧ ("importance", Json.num memory.importance) ∈ storeMemoryPayload tsRender memory) := by
  unfold search_similar at hm
  rcases List.mem_filterMap.mp hm with ⟨r, _, hr⟩
  unfold decodeMemory at hr
  simp only [Option.bind_eq_bind, Option.bind_eq_some, Option.pure_def,
    Option.some.injEq] at hr
  rcases hr with ⟨t, _, ts, _, ro, _, hm'⟩
  refine ⟨?_, ?_, ?_, ?_⟩
  · rw [← hm']
  · rw [← hm']
  · rw [← hm']
  · intro tsRender memory
    unfold storeMemoryPayload
    constructor
    · simp
    · simp

/-- One stored candidate payload for the C10 witness. -/
def c10Results : List (String × Rat × List (String × Json)) :=
  [("id1", mkRat 0 1,
    [("text", Json.str "hi"), ("timestamp", Json.str "t0"), ("role", Json.str "user"),
     ("session_id", Json.str "s1"), ("importance", Json.num (mkRat 1 1)),
     ("topic_tags", Json.arr [])])]

/-- A timestamp parser for the C10 witness. -/
def c10ParseTs : String → Option Int := fun _ => some 0

/-- Witness for C10 at one concrete decoded memory. -/
theorem claim_C10_witness :
    (⟨"hi", 0, "user", "", 1, [], none⟩ : Memory) ∈ search_similar c10ParseTs c10Results
    ∧ (⟨"hi", 0, "user", "", 1, [], none⟩ : Memory).session_id = ""
    ∧ (⟨"hi", 0, "user", "", 1, [], none⟩ : Memory).importance = 1
    ∧ (⟨"hi", 0, "user", "", 1, [], none⟩ : Memory).topic_tags = [] :=
  have hmem : (⟨"hi", 0, "user", "", 1, [], none⟩ : Memory)
      ∈ search_similar c10ParseTs c10Results := by
    rw [show search_similar c10ParseTs c10Results
        = [⟨"hi", 0, "user", "", 1, [], none⟩] from rfl]
    exact List.mem_singleton.mpr rfl
  ⟨hmem, (claim_C10 c10ParseTs c10Results _ hmem).1,
    (claim_C10 c10ParseTs c10Results _ hmem).2.1,
    (claim_C10 c10ParseTs c10Results _ hmem).2.2.1⟩

/-- The stored candidate of the C4 failing input: a record stored under
session id `"s1"`, exactly as `store_memory` would have written it. -/
def c4Point : String × Rat × List (String × Json) :=
  ("id1", mkRat 0 1,
   [("text", Json.str "hello"), ("timestamp", Json.str "t0"), ("role", Json.str "user"),
    ("session_id", Json.str "s1"), ("importance", Json.num (mkRat 1 1)),
    ("topic_tags", Json.arr [])])

/-- The candidate set (zero-vector, limit-100 search response) of the C4
failing input. -/
def c4Results : List (String × Rat × List (String × Json)) := [c4Point]

/-- The timestamp parser of the C4 failing input. -/
def c4ParseTs : String → Option Int := fun _ => some 0

/-- C4, evaluated at the failing input: the candidate set holds exactly one
record, stored under `session_id = "s1"` and decodable by `search_similar`,
yet `search_by_session "s1"` returns nothing — because the decode hardcodes
`session_id = ""`, the filter can only ever match the empty string, for
which the whole candidate set is returned. -/
theorem claim_C4 :
    jLookup c4Point.2.2 "session_id" = some (Json.str "s1")
    ∧ (search_similar c4ParseTs c4Results).length = 1
    ∧ search_by_session c4ParseTs c4Results "s1" = []
    ∧ search_by_session c4ParseTs c4Results ""
        = search_similar c4ParseTs c4Results := by
  exact ⟨rfl, rfl, rfl, rfl⟩

/-- C6: with a current session whose `last_active` lies strictly less than
30 minutes in the past, `get_or_create_session` returns the same id and
refreshes `last_active` to now; with 30 or more minutes elapsed, or with no
session, it returns the fresh id (different from the old one whenever the
fresh uuid differs); `start_new_session` always returns the freshly
generated id. -/
theorem claim_C6 (s : ConversationSession) (now : Int) (fresh_id : String)
    (topic : Option String) :
    (0 ≤ now - s.last_active → now - s.last_active < 30 * 60 →
      (get_or_create_session (some s) now fresh_id topic).1 = s.id
      ∧ (get_or_create_session (some s) now fresh_id topic).2
          = some { s with last_active := now })
    ∧ (30 * 60 ≤ now - s.last_active → fresh_id ≠ s.id →
      (get_or_create_session (some s) now fresh_id topic).1 = fresh_id
      ∧ (get_or_create_session (some s) now fresh_id topic).1 ≠ s.id)
    ∧ (get_or_create_session none now fresh_id topic).1 = fresh_id
    ∧ (∀ t, (start_new_session fresh_id now t).1 = fresh_id) := by
  refine ⟨?_, ?_, rfl, fun _ => rfl⟩
  · intro h0 hlt
    have hmin : num_minutes (now - s.last_active) < 30 := by
      unfold num_minutes
      rw [tdiv60_eq_ediv h0]
      omega
    have hred : get_or_create_session (some s) now fresh_id topic
        = (s.id, some { s with last_active := now }) := by
      simp only [get_or_create_session, if_pos hmin]
    rw [hred]
    exact ⟨rfl, rfl⟩
  · intro h30 hne
    have h0 : 0 ≤ now - s.last_active := by omega
    have hmin : ¬ num_minutes (now - s.last_active) < 30 := by
      unfold num_minutes
      rw [tdiv60_eq_ediv h0]
      omega
    have hred : get_or_create_session (some s) now fresh_id topic
        = start_new_session fresh_id now (topic.getD "General Conversation") := by
      simp only [get_or_create_session, if_neg hmin]
    rw [hred]
    exact ⟨rfl, hne⟩

/-- Witness for C6: 1 minute elapsed keeps the session `"sid"`; 31 minutes
elapsed switches to the fresh id. -/
theorem claim_C6_witness :
    (get_or_create_session (some ⟨"sid", 0, "t", "", 0⟩) 60 "fresh" none).1 = "sid"
    ∧ (get_or_create_session (some ⟨"sid", 0, "t", "", 0⟩) 1860 "fresh" none).1 = "fresh" :=
  ⟨((claim_C6 ⟨"sid", 0, "t", "", 0⟩ 60 "fresh" none).1 (by decide) (by decide)).1,
   ((claim_C6 ⟨"sid", 0, "t", "", 0⟩ 1860 "fresh" none).2.1 (by decide) (by decide)).1⟩

/-!
### Conversation context assembly (`src/llm/chat.rs`,
`build_conversation_context`)

The memory fetches (`search_similar` with the user embedding,
`get_recent_memories`) are index-driven; their results are the `similar`
and `recent` inputs.  The rendered context is modelled as a `List Char`;
`max_context_length` is the 4000 fixed in `ChatManager::new`. -/

/-- The `"Recent Conversation:"` section: recent memories in reverse fetch
order, one `role: text` line each. -/
def recentSection (recent : List Memory) : List Char :=
  "Recent Conversation:\n".data
    ++ (recent.reverse.flatMap (fun m => (m.role ++ ": " ++ m.text ++ "\n").data))

/-- The header/separator line between the two sections — also the pattern
the truncation splits on. -/
def relevantHeader : List Char := "\nRelevant Past Messages:\n".data

/-- The similar memories kept for the `"Relevant"` section: those whose
text does not exactly equal any recent memory's text. -/
def relevantKept (similar recent : List Memory) : List Memory :=
  similar.filter (fun m => !(recent.any (fun r => r.text = m.text)))

/-- The rendered `"Relevant"` entries. -/
def relevantRendered (similar recent : List Memory) : List Char :=
  (relevantKept similar recent).flatMap
    (fun m => ("[Previous] " ++ m.role ++ ": " ++ m.text ++ "\n").data)

/-- The replacement appended to the split-off recent part on truncation. -/
def truncatedTail : List Char := "\nRelevant Past Messages: [Truncated for length]".data

/-- `build_conversation_context`: render both sections; if the result
exceeds 4000 characters, keep `context.split("\nRelevant Past Messages:\n")
.next()` and append the truncation placeholder.  (Rust's `String::len`
counts bytes; the model counts characters — the two agree on ASCII
contexts, and the spec speaks of a character budget.) -/
def build_conversation_context (similar recent : List Memory) : List Char :=
  let context := recentSection recent ++ relevantHeader ++ relevantRendered similar recent
  if context.length > 4000 then
    firstSplitPart relevantHeader context ++ truncatedTail
  else context

/-- When the separator occurs nowhere strictly inside `a` (nor straddling
into the appended separator), the first split piece is exactly `a`. -/
theorem firstSplitPart_at_sep (sep a v : List Char)
    (H : ∀ i, i < a.length → startsWithList sep ((a ++ (sep ++ v)).drop i) = false) :
    firstSplitPart sep (a ++ sep ++ v) = a := by
  induction a with
  | nil =>
    simp only [List.nil_append]
    cases h : sep ++ v with
    | nil => rfl
    | cons c cs =>
      unfold firstSplitPart
      rw [if_pos (by rw [← h]; exact startsWithList_self_append sep v)]
  | cons c a' ih =>
    have h0 := H 0 (by simp)
    simp only [List.drop_zero, List.cons_append] at h0
    show firstSplitPart sep (c :: (a' ++ sep ++ v)) = c :: a'
    unfold firstSplitPart
    rw [if_neg (by
      rw [show c :: (a' ++ sep ++ v) = c :: (a' ++ (sep ++ v)) from by
        simp [List.append_assoc]]
      simp [h0])]
    refine congrArg _ (ih ?_)
    intro i hi
    have := H (i + 1) (by simpa using Nat.succ_lt_succ hi)
    simpa [List.cons_append, List.drop_succ_cons] using this

/-- C7 as amended: (dedup) every similar memory whose text exactly equals a
recent memory's text is excluded from the `"Relevant"` section; (truncate)
over the 4000-character budget the Recent section is kept intact and the
Relevant section replaced by the placeholder, PROVIDED the separator line
`"\nRelevant Past Messages:\n"` does not itself occur inside the rendered
Recent section (the split truncates at its first occurrence, wherever that
is); within budget the context passes through unchanged. -/
theorem claim_C7 (similar recent : List Memory) :
    (∀ m ∈ similar, (∃ r ∈ recent, r.text = m.text) → m ∉ relevantKept similar recent)
    ∧ ((recentSection recent ++ relevantHeader ++ relevantRendered similar recent).length
          ≤ 4000 →
        build_conversation_context similar recent
          = recentSection recent ++ relevantHeader ++ relevantRendered similar recent)
    ∧ ((recentSection recent ++ relevantHeader ++ relevantRendered similar recent).length
          > 4000 →
        (∀ i, i < (recentSection recent).length →
          startsWithList relevantHeader
            ((recentSection recent
              ++ (relevantHeader ++ relevantRendered similar recent)).drop i) = false) →
        build_conversation_context similar recent
          = recentSection recent ++ truncatedTail) := by
  refine ⟨?_, ?_, ?_⟩
  · rintro m hms ⟨r, hr, hrt⟩ hmem
    have hpred := List.of_mem_filter hmem
    simp only [Bool.not_eq_true', List.any_eq_false, decide_eq_true_eq] at hpred
    exact hpred r hr hrt
  · intro hle
    unfold build_conversation_context
    rw [if_neg (by omega)]
  · intro hgt H
    unfold build_conversation_context
    rw [if_pos (by omega)]
    exact congrArg (fun l => l ++ truncatedTail)
      (firstSplitPart_at_sep relevantHeader (recentSection recent)
        (relevantRendered similar recent) H)

/-- Witness for C7: one similar memory duplicating the recent text is
dropped; the short context passes through untouched. -/
theorem claim_C7_witness :
    ((⟨"hi", 0, "user", "", 1, [], none⟩ : Memory) ∈ [(⟨"hi", 0, "user", "", 1, [], none⟩ : Memory)]
      ∧ (∃ r ∈ [(⟨"hi", 0, "assistant", "", 1, [], none⟩ : Memory)],
          r.text = (⟨"hi", 0, "user", "", 1, [], none⟩ : Memory).text)
      ∧ (⟨"hi", 0, "user", "", 1, [], none⟩ : Memory)
          ∉ relevantKept [⟨"hi", 0, "user", "", 1, [], none⟩]
            [⟨"hi", 0, "assistant", "", 1, [], none⟩])
    ∧ build_conversation_context [] [⟨"hi", 0, "user", "", 1, [], none⟩]
        = recentSection [⟨"hi", 0, "user", "", 1, [], none⟩] ++ relevantHeader
          ++ relevantRendered [] [⟨"hi", 0, "user", "", 1, [], none⟩] :=
  ⟨⟨by decide,
    ⟨⟨"hi", 0, "assistant", "", 1, [], none⟩, by decide, rfl⟩,
    (claim_C7 [⟨"hi", 0, "user", "", 1, [], none⟩]
        [⟨"hi", 0, "assistant", "", 1, [], none⟩]).1 _ (by decide)
      ⟨⟨"hi", 0, "assistant", "", 1, [], none⟩, by decide, rfl⟩⟩,
   (claim_C7 [] [⟨"hi", 0, "user", "", 1, [], none⟩]).2.1 (by decide)⟩

/-- The rendered prefix of the Recent section before the adversarial
memory's text. -/
def c7A : List Char := "Recent Conversation:\nuser: ".data

/-- 4000 filler characters pushing the context over the budget. -/
def c7T : List Char := List.replicate 4000 'a'

/-- The adversarial recent memory of the C7 counterexample: its text embeds
the separator line, followed by enough text to exceed the budget. -/
def c7Recent : List Memory :=
  [⟨"\nRelevant Past Messages:\n" ++ ⟨c7T⟩, 0, "user", "", 1, [], none⟩]

theorem c7_recentSection_eq :
    recentSection c7Recent = c7A ++ relevantHeader ++ c7T ++ "\n".data := by
  unfold recentSection c7Recent
  simp only [List.reverse_cons, List.reverse_nil, List.nil_append, List.flatMap_cons,
    List.flatMap_nil, List.append_nil, String.data_append]
  show "Recent Conversation:\n".data ++ ("user".data ++ ": ".data
      ++ ("\nRelevant Past Messages:\n".data ++ c7T) ++ "\n".data)
    = c7A ++ relevantHeader ++ c7T ++ "\n".data
  simp only [List.append_assoc, relevantHeader]
  rw [show c7A = "Recent Conversation:\n".data ++ ("user".data ++ ": ".data) from by decide]
  simp only [List.append_assoc]

theorem c7_context_len :
    (recentSection c7Recent ++ relevantHeader ++ relevantRendered [] c7Recent).length
      = 4078 := by
  rw [show relevantRendered [] c7Recent = [] from rfl, List.append_nil, c7_recentSection_eq]
  simp only [List.length_append, c7A, c7T, relevantHeader, List.length_replicate]
  decide

theorem c7T_len : c7T.length = 4000 := List.length_replicate 4000 'a'

theorem c7_build_eq :
    build_conversation_context [] c7Recent = c7A ++ truncatedTail := by
  show (if (recentSection c7Recent ++ relevantHeader ++ relevantRendered [] c7Recent).length
        > 4000
      then firstSplitPart relevantHeader
        (recentSection c7Recent ++ relevantHeader ++ relevantRendered [] c7Recent)
        ++ truncatedTail
      else recentSection c7Recent ++ relevantHeader ++ relevantRendered [] c7Recent)
    = c7A ++ truncatedTail
  rw [if_pos (by rw [c7_context_len]; omega)]
  refine congrArg (fun l => l ++ truncatedTail) ?_
  rw [show relevantRendered [] c7Recent = [] from rfl, List.append_nil, c7_recentSection_eq]
  rw [show c7A ++ relevantHeader ++ c7T ++ "\n".data ++ relevantHeader
      = c7A ++ relevantHeader ++ (c7T ++ ("\n".data ++ relevantHeader)) from by
    simp [List.append_assoc]]
  exact firstSplitPart_at_sep relevantHeader c7A (c7T ++ ("\n".data ++ relevantHeader))
    (by decide)

/-- Counterexample to C7 as stated: with this recent memory the rendered
context exceeds 4000 characters, but the truncated result is NOT the
intact Recent section followed by the placeholder — the split cuts the
Recent section at the separator occurrence inside the memory text. -/
theorem claim_C7_cex :
    (recentSection c7Recent ++ relevantHeader ++ relevantRendered [] c7Recent).length > 4000
    ∧ build_conversation_context [] c7Recent ≠ recentSection c7Recent ++ truncatedTail
    ∧ build_conversation_context [] c7Recent
        = "Recent Conversation:\nuser: ".data ++ truncatedTail := by
  refine ⟨by rw [c7_context_len]; omega, ?_, c7_build_eq⟩
  rw [c7_build_eq]
  intro h
  have hlen := congrArg List.length h
  rw [List.length_append, List.length_append, c7_recentSection_eq, List.length_append,
    List.length_append, List.length_append, c7T_len] at hlen
  omega
